import Mathlib

/-!
Shallow embedding of the software rasterizer and procedural shaders of
`src/shaders/src/main.rs`.

Modelling conventions:
* `f32` values are modelled as real numbers; the Rust primitives `fract`,
  `clamp` and the saturating numeric casts (`as u8`, `as u32`, `as usize`)
  are modelled explicitly.
* `u8` colour channels are modelled as `Fin 256`.
* The depth buffer holds `f32::NEG_INFINITY` initially, so depth cells are
  modelled as `WithBot ℝ` (`⊥` standing for negative infinity).
* Buffers are modelled as total functions from the flat pixel index.
* A separate model (`EFloat`) with IEEE-style infinities and NaN captures
  the behaviour of the barycentric inside-test when the screen-space
  denominator degenerates to zero, which the real-number model cannot see.
-/

namespace Shaders

/-- Image width in pixels (`WIDTH` in main.rs). -/
def WIDTH : ℕ := 800

/-- Image height in pixels (`HEIGHT` in main.rs). -/
def HEIGHT : ℕ := 800

/-- Rust `f32::trunc`: rounds toward zero. -/
noncomputable def rustTrunc (x : ℝ) : ℝ := if 0 ≤ x then (⌊x⌋ : ℝ) else (⌈x⌉ : ℝ)

/-- Rust `f32::fract`: `x - x.trunc()`.  Negative for negative non-integer input. -/
noncomputable def rustFract (x : ℝ) : ℝ := x - rustTrunc x

/-- Rust `f32::clamp(lo, hi)` for non-NaN input. -/
noncomputable def rustClamp (x lo hi : ℝ) : ℝ := if x < lo then lo else if x > hi then hi else x

/-- Rust `as u8` cast from `f32`: truncates toward zero and saturates to `[0, 255]`. -/
noncomputable def rustU8 (x : ℝ) : Fin 256 :=
  if x < 0 then ⟨0, by norm_num⟩ else ⟨min ⌊x⌋.toNat 255, by omega⟩

/-- Rust `as u32` cast from `f32`: truncates toward zero and saturates to `[0, 2^32 - 1]`. -/
noncomputable def rustU32 (x : ℝ) : ℕ := min ⌊x⌋.toNat (2 ^ 32 - 1)

/-- Rust `as usize` cast from `f32`: truncates toward zero and saturates below at `0`. -/
noncomputable def rustUsize (x : ℝ) : ℕ := ⌊x⌋.toNat

/-- 3D vector of `f32` components (struct `Vec3`, main.rs lines 44-102). -/
structure Vec3 where
  x : ℝ
  y : ℝ
  z : ℝ

/-- `Vec3::dot` (main.rs line 56). -/
def Vec3.dot (a b : Vec3) : ℝ := a.x * b.x + a.y * b.y + a.z * b.z

/-- `Vec3::cross` (main.rs line 60). -/
def Vec3.cross (a b : Vec3) : Vec3 :=
  ⟨a.y * b.z - a.z * b.y, a.z * b.x - a.x * b.z, a.x * b.y - a.y * b.x⟩

/-- `Vec3::length` (main.rs line 68). -/
noncomputable def Vec3.length (v : Vec3) : ℝ := Real.sqrt (v.x * v.x + v.y * v.y + v.z * v.z)

/-- `Vec3::normalize` (main.rs lines 72-79): divides by the length only when it is
strictly positive, otherwise returns the zero vector. -/
noncomputable def Vec3.normalize (v : Vec3) : Vec3 :=
  if v.length > 0 then ⟨v.x / v.length, v.y / v.length, v.z / v.length⟩ else ⟨0, 0, 0⟩

/-- `Vec3::add` (main.rs line 81). -/
def Vec3.add (a b : Vec3) : Vec3 := ⟨a.x + b.x, a.y + b.y, a.z + b.z⟩

/-- `Vec3::sub` (main.rs line 85). -/
def Vec3.sub (a b : Vec3) : Vec3 := ⟨a.x - b.x, a.y - b.y, a.z - b.z⟩

/-- `Vec3::mul` by a scalar (main.rs line 89). -/
def Vec3.mul (v : Vec3) (s : ℝ) : Vec3 := ⟨v.x * s, v.y * s, v.z * s⟩

/-- `Vec3::rotate_y` (main.rs lines 93-101). -/
noncomputable def Vec3.rotate_y (v : Vec3) (angle : ℝ) : Vec3 :=
  ⟨v.x * Real.cos angle + v.z * Real.sin angle, v.y,
    -v.x * Real.sin angle + v.z * Real.cos angle⟩

/-- 8-bit RGB colour (struct `Color`, main.rs lines 9-41). -/
structure Color where
  r : Fin 256
  g : Fin 256
  b : Fin 256

/-- `Color::from_float` (main.rs lines 21-27): clamps each channel to `[0,1]`,
scales by 255 and casts to `u8`. -/
noncomputable def Color.from_float (r g b : ℝ) : Color :=
  ⟨rustU8 (rustClamp r 0 1 * 255), rustU8 (rustClamp g 0 1 * 255), rustU8 (rustClamp b 0 1 * 255)⟩

/-- `Color::mix` (main.rs lines 29-36): channel-wise linear interpolation with the
parameter clamped to `[0,1]`, each channel cast back to `u8`. -/
noncomputable def Color.mix (self other : Color) (t : ℝ) : Color :=
  let t := rustClamp t 0 1
  ⟨rustU8 ((self.r.val : ℝ) * (1 - t) + (other.r.val : ℝ) * t),
    rustU8 ((self.g.val : ℝ) * (1 - t) + (other.g.val : ℝ) * t),
    rustU8 ((self.b.val : ℝ) * (1 - t) + (other.b.val : ℝ) * t)⟩

/-- `Color::to_u32` (main.rs lines 38-40): packs the channels as `0xRRGGBB`. -/
def Color.to_u32 (c : Color) : ℕ := c.r.val <<< 16 ||| c.g.val <<< 8 ||| c.b.val

/-- Per-pixel shading input (struct `Fragment`, main.rs lines 105-110). -/
structure Fragment where
  position : Vec3
  normal : Vec3
  intensity : ℝ
  time : ℝ

/-- `noise_3d` (main.rs lines 113-118): sines scaled by large constants, summed,
and passed through Rust `fract`. -/
noncomputable def noise_3d (p : Vec3) : ℝ :=
  rustFract (Real.sin p.x * 43758.5453 + Real.sin p.y * 22578.1459 + Real.sin p.z * 19134.3872)

/-- Loop of `fbm` (main.rs lines 126-136).  The state carries
`(value, amplitude, frequency, max_value)`; the result is `(value, max_value)`. -/
noncomputable def fbmAux (p : Vec3) : ℕ → ℝ → ℝ → ℝ → ℝ → ℝ × ℝ
  | 0, value, _, _, max_value => (value, max_value)
  | n + 1, value, amplitude, frequency, max_value =>
      fbmAux p n
        (value + noise_3d ⟨p.x * frequency, p.y * frequency, p.z * frequency⟩ * amplitude)
        (amplitude * 0.5) (frequency * 2.0) (max_value + amplitude)

/-- `fbm` (main.rs lines 120-139): octave accumulation starting from amplitude 0.5 and
frequency 1.0, divided by the sum of the amplitudes used.  `octaves` is an `i32`;
a non-positive count runs zero iterations. -/
noncomputable def fbm (p : Vec3) (octaves : ℤ) : ℝ :=
  let r := fbmAux p octaves.toNat 0 0.5 1.0 0
  r.1 / r.2

/-- Body of `ring_shader` after the radius band test (main.rs lines 336-376),
given the already-computed radius. -/
noncomputable def ringShaderBody (fragment : Fragment) (radius : ℝ) : Color × ℝ :=
  let band_pattern := Real.sin (radius * 15.0) * 0.5 + 0.5
  let ring_color1 := Color.from_float 0.9 0.8 0.6
  let ring_color2 := Color.from_float 0.7 0.6 0.4
  let ring_color3 := Color.from_float 0.5 0.4 0.3
  let base_color :=
    if band_pattern < 0.3 then ring_color1.mix ring_color2 (band_pattern * 3.3)
    else if band_pattern < 0.7 then ring_color2.mix ring_color3 ((band_pattern - 0.3) * 2.5)
    else ring_color3.mix ring_color1 ((band_pattern - 0.7) * 3.3)
  let gaps := fbm ⟨fragment.position.x * 8.0, 0.0, fragment.position.z * 8.0⟩ 3
  let gap_effect : ℝ := if gaps > 0.7 then 0.3 else 1.0
  let particles := noise_3d ⟨fragment.position.x * 25.0, 0.0, fragment.position.z * 25.0⟩
  let alpha := (2.0 - radius) / (2.0 - 1.3) * gap_effect * particles
  let alpha := rustClamp alpha 0.3 0.95
  let brightness := fragment.intensity * (0.6 + particles * 0.4)
  let final_color := Color.from_float
    ((base_color.r.val : ℝ) / 255.0 * brightness)
    ((base_color.g.val : ℝ) / 255.0 * brightness)
    ((base_color.b.val : ℝ) / 255.0 * brightness)
  (final_color, alpha)

/-- `ring_shader` (main.rs lines 326-377): returns `(colour, alpha)`, with alpha 0
outside the radius band `[1.3, 2.0]` measured from the vertical axis. -/
noncomputable def ring_shader (fragment : Fragment) : Color × ℝ :=
  let radius := Real.sqrt (fragment.position.x ^ 2 + fragment.position.z ^ 2)
  if radius < 1.3 ∨ radius > 2.0 then (⟨0, 0, 0⟩, 0) else ringShaderBody fragment radius

/-- Screen-space x of a projected vertex (`center_x + v.x * scale`, main.rs line 671). -/
noncomputable def projX (v : Vec3) : ℝ := (WIDTH : ℝ) / 2 + v.x * 200

/-- Screen-space y of a projected vertex (`center_y - v.y * scale`, main.rs line 671). -/
noncomputable def projY (v : Vec3) : ℝ := (HEIGHT : ℝ) / 2 - v.y * 200

/-- Lower x bound of the clamped screen bounding box (main.rs line 675). -/
noncomputable def bboxMinX (v1 v2 v3 : Vec3) : ℕ :=
  rustUsize (max (min (min (projX v1) (projX v2)) (projX v3)) 0)

/-- Upper x bound of the clamped screen bounding box (main.rs line 676). -/
noncomputable def bboxMaxX (v1 v2 v3 : Vec3) : ℕ :=
  rustUsize (min (max (max (projX v1) (projX v2)) (projX v3)) ((WIDTH : ℝ) - 1))

/-- Lower y bound of the clamped screen bounding box (main.rs line 677). -/
noncomputable def bboxMinY (v1 v2 v3 : Vec3) : ℕ :=
  rustUsize (max (min (min (projY v1) (projY v2)) (projY v3)) 0)

/-- Upper y bound of the clamped screen bounding box (main.rs line 678). -/
noncomputable def bboxMaxY (v1 v2 v3 : Vec3) : ℕ :=
  rustUsize (min (max (max (projY v1) (projY v2)) (projY v3)) ((HEIGHT : ℝ) - 1))

/-- Barycentric weights `(u, v)` of pixel `(x, y)` with respect to the projected
triangle (main.rs lines 686-701). -/
noncomputable def baryCoords (v1 v2 v3 : Vec3) (x y : ℕ) : ℝ × ℝ :=
  let px : ℝ := (x : ℝ)
  let py : ℝ := (y : ℝ)
  let v0 := (projX v2 - projX v1, projY v2 - projY v1)
  let v1l := (projX v3 - projX v1, projY v3 - projY v1)
  let v2l := (px - projX v1, py - projY v1)
  let dot00 := v0.1 * v0.1 + v0.2 * v0.2
  let dot01 := v0.1 * v1l.1 + v0.2 * v1l.2
  let dot02 := v0.1 * v2l.1 + v0.2 * v2l.2
  let dot11 := v1l.1 * v1l.1 + v1l.2 * v1l.2
  let dot12 := v1l.1 * v2l.1 + v1l.2 * v2l.2
  let inv_denom := 1 / (dot00 * dot11 - dot01 * dot01)
  ((dot11 * dot02 - dot01 * dot12) * inv_denom, (dot00 * dot12 - dot01 * dot02) * inv_denom)

/-- Inside-test of the rasterizer (main.rs line 703): both weights non-negative
and their sum at most one. -/
def insideTri (v1 v2 v3 : Vec3) (x y : ℕ) : Prop :=
  (baryCoords v1 v2 v3 x y).1 ≥ 0 ∧ (baryCoords v1 v2 v3 x y).2 ≥ 0 ∧
    (baryCoords v1 v2 v3 x y).1 + (baryCoords v1 v2 v3 x y).2 ≤ 1

/-- World-space position interpolated from the un-projected vertices
(main.rs line 704). -/
noncomputable def interpPos (v1 v2 v3 : Vec3) (x y : ℕ) : Vec3 :=
  (v1.add ((v2.sub v1).mul (baryCoords v1 v2 v3 x y).1)).add
    ((v3.sub v1).mul (baryCoords v1 v2 v3 x y).2)

/-- Flat per-triangle normal (main.rs lines 680-682). -/
noncomputable def triNormal (v1 v2 v3 : Vec3) : Vec3 :=
  ((v2.sub v1).cross (v3.sub v1)).normalize

/-- Fragment built by the opaque rasterizer (main.rs lines 711-718): clamped
Lambertian intensity with a 0.2 ambient floor. -/
noncomputable def solidFragment (v1 v2 v3 light_dir : Vec3) (time : ℝ) (x y : ℕ) : Fragment :=
  { position := interpPos v1 v2 v3 x y
    normal := triNormal v1 v2 v3
    intensity := max ((triNormal v1 v2 v3).dot light_dir) 0 * 0.8 + 0.2
    time := time }

/-- Fragment built by the translucent ring rasterizer (main.rs lines 778-785):
absolute-valued Lambertian intensity with a 0.2 ambient floor. -/
noncomputable def ringFragment (v1 v2 v3 light_dir : Vec3) (time : ℝ) (x y : ℕ) : Fragment :=
  { position := interpPos v1 v2 v3 x y
    normal := triNormal v1 v2 v3
    intensity := |(triNormal v1 v2 v3).dot light_dir| * 0.8 + 0.2
    time := time }

/-- Contents of one pixel: packed colour and depth. -/
abbrev Cell : Type := ℕ × WithBot ℝ

/-- Parallel colour and depth buffers, as in `render_sphere` and friends
(main.rs lines 822-823). -/
structure RenderState where
  buffer : ℕ → ℕ
  zbuffer : ℕ → WithBot ℝ

/-- Contents of a render state at one flat pixel index. -/
def RenderState.cell (st : RenderState) (i : ℕ) : Cell := (st.buffer i, st.zbuffer i)

/-- Replace the contents of one pixel index by a function of its old contents. -/
def applyAt (i : ℕ) (f : Cell → Cell) (st : RenderState) : RenderState :=
  { buffer := Function.update st.buffer i (f (st.cell i)).1
    zbuffer := Function.update st.zbuffer i (f (st.cell i)).2 }

/-- Inner x loop of the rasterizers (main.rs line 685): each pixel `(x, y)` reads
and writes only its own index `y * WIDTH + x`. -/
def rowFold (stepAt : ℕ → ℕ → Cell → Cell) (y : ℕ) (xs : List ℕ) (st : RenderState) :
    RenderState :=
  xs.foldl (fun s x => applyAt (y * WIDTH + x) (stepAt x y) s) st

/-- Double pixel loop over the inclusive bounding box (main.rs lines 684-685). -/
def rasterLoop (minX maxX minY maxY : ℕ) (stepAt : ℕ → ℕ → Cell → Cell) (st : RenderState) :
    RenderState :=
  (List.range' minY (maxY + 1 - minY)).foldl
    (fun s y => rowFold stepAt y (List.range' minX (maxX + 1 - minX)) s) st

open scoped Classical in
/-- Per-pixel body of `render_triangle` (main.rs lines 703-723): inside-test,
depth test against the stored value, and on success write depth and colour. -/
noncomputable def solidCellStep (v1 v2 v3 light_dir : Vec3) (shader : Fragment → Color)
    (time : ℝ) (x y : ℕ) (c : Cell) : Cell :=
  if insideTri v1 v2 v3 x y then
    if ((interpPos v1 v2 v3 x y).z : WithBot ℝ) > c.2 then
      ((shader (solidFragment v1 v2 v3 light_dir time x y)).to_u32,
        ((interpPos v1 v2 v3 x y).z : WithBot ℝ))
    else c
  else c

/-- `render_triangle` (main.rs lines 655-726). -/
noncomputable def render_triangle (st : RenderState) (v1 v2 v3 light_dir : Vec3)
    (shader : Fragment → Color) (time : ℝ) : RenderState :=
  rasterLoop (bboxMinX v1 v2 v3) (bboxMaxX v1 v2 v3) (bboxMinY v1 v2 v3) (bboxMaxY v1 v2 v3)
    (solidCellStep v1 v2 v3 light_dir shader time) st

/-- Alpha compositing of the ring colour over the existing packed pixel
(main.rs lines 790-805). -/
noncomputable def ringBlend (ring_color : Color) (alpha : ℝ) (existing : ℕ) : ℕ :=
  let existing_r : ℝ := (((existing >>> 16) &&& 255 : ℕ) : ℝ) / 255
  let existing_g : ℝ := (((existing >>> 8) &&& 255 : ℕ) : ℝ) / 255
  let existing_b : ℝ := (((existing &&& 255 : ℕ)) : ℝ) / 255
  let ring_r : ℝ := (ring_color.r.val : ℝ) / 255
  let ring_g : ℝ := (ring_color.g.val : ℝ) / 255
  let ring_b : ℝ := (ring_color.b.val : ℝ) / 255
  let final_r := rustClamp (ring_r * alpha + existing_r * (1 - alpha)) 0 1
  let final_g := rustClamp (ring_g * alpha + existing_g * (1 - alpha)) 0 1
  let final_b := rustClamp (ring_b * alpha + existing_b * (1 - alpha)) 0 1
  rustU32 (final_r * 255) <<< 16 ||| rustU32 (final_g * 255) <<< 8 ||| rustU32 (final_b * 255)

open scoped Classical in
/-- Per-pixel body of `render_ring_triangle` (main.rs lines 773-807): no depth
test; covered pixels with alpha above 0.01 are alpha-composited. -/
noncomputable def ringCellStep (v1 v2 v3 light_dir : Vec3) (time : ℝ) (x y : ℕ)
    (c : Cell) : Cell :=
  if insideTri v1 v2 v3 x y then
    if (ring_shader (ringFragment v1 v2 v3 light_dir time x y)).2 > 0.01 then
      (ringBlend (ring_shader (ringFragment v1 v2 v3 light_dir time x y)).1
        (ring_shader (ringFragment v1 v2 v3 light_dir time x y)).2 c.1, c.2)
    else c
  else c

/-- `render_ring_triangle` (main.rs lines 728-810); the depth buffer argument is
unused in the source (`_z_buffer`). -/
noncomputable def render_ring_triangle (st : RenderState) (v1 v2 v3 light_dir : Vec3)
    (time : ℝ) : RenderState :=
  rasterLoop (bboxMinX v1 v2 v3) (bboxMaxX v1 v2 v3) (bboxMinY v1 v2 v3) (bboxMaxY v1 v2 v3)
    (ringCellStep v1 v2 v3 light_dir time) st

/-- One invocation of `render_triangle`: a triangle together with the shader it
is drawn with. -/
structure DrawCall where
  v1 : Vec3
  v2 : Vec3
  v3 : Vec3
  shader : Fragment → Color

/-- A sequence of `render_triangle` calls over shared buffers, as issued by the
frame compositors (main.rs lines 827-837). -/
noncomputable def renderCalls (light_dir : Vec3) (time : ℝ) (calls : List DrawCall)
    (st : RenderState) : RenderState :=
  calls.foldl (fun s c => render_triangle s c.v1 c.v2 c.v3 light_dir c.shader time) st

/-- Pixel `(x, y)` lies in the clamped bounding box of the call's triangle. -/
def inBBox (v1 v2 v3 : Vec3) (x y : ℕ) : Prop :=
  bboxMinX v1 v2 v3 ≤ x ∧ x ≤ bboxMaxX v1 v2 v3 ∧
    bboxMinY v1 v2 v3 ≤ y ∧ y ≤ bboxMaxY v1 v2 v3

/-- The call's triangle covers pixel `(x, y)`: the pixel is scanned and passes
the inside-test. -/
def coversPixel (c : DrawCall) (x y : ℕ) : Prop :=
  inBBox c.v1 c.v2 c.v3 x y ∧ insideTri c.v1 c.v2 c.v3 x y

/-- Interpolated world z of the call's triangle at pixel `(x, y)` (main.rs line 705). -/
noncomputable def zAtPixel (c : DrawCall) (x y : ℕ) : ℝ := (interpPos c.v1 c.v2 c.v3 x y).z

/-- Packed colour the call's shader produces at pixel `(x, y)`. -/
noncomputable def colAtPixel (light_dir : Vec3) (time : ℝ) (c : DrawCall) (x y : ℕ) : ℕ :=
  (c.shader (solidFragment c.v1 c.v2 c.v3 light_dir time x y)).to_u32

open scoped Classical in
/-- Depth-tested overwrite of one pixel (main.rs lines 708-721). -/
noncomputable def depthWrite (z : ℝ) (col : ℕ) (cell : Cell) : Cell :=
  if (z : WithBot ℝ) > cell.2 then (col, (z : WithBot ℝ)) else cell

open scoped Classical in
/-- Effect of one `render_triangle` call on the contents of a single pixel. -/
noncomputable def callCellStep (light_dir : Vec3) (time : ℝ) (x y : ℕ) (c : DrawCall)
    (cell : Cell) : Cell :=
  if inBBox c.v1 c.v2 c.v3 x y then solidCellStep c.v1 c.v2 c.v3 light_dir c.shader time x y cell
  else cell

/-- Initial buffers of a frame: colour all zero, depth all negative infinity
(main.rs lines 822-823). -/
def initState : RenderState := ⟨fun _ => 0, fun _ => ⊥⟩

/-- Vertex of the order-dependence example triangle. -/
noncomputable def cexV1 : Vec3 := ⟨0, 0, 0⟩

/-- Vertex of the order-dependence example triangle. -/
noncomputable def cexV2 : Vec3 := ⟨1 / 500, 0, 0⟩

/-- Vertex of the order-dependence example triangle. -/
noncomputable def cexV3 : Vec3 := ⟨0, -(1 / 500), 0⟩

/-- Draw call painting the example triangle red. -/
noncomputable def cexRed : DrawCall := ⟨cexV1, cexV2, cexV3, fun _ => ⟨255, 0, 0⟩⟩

/-- Draw call painting the example triangle green. -/
noncomputable def cexGreen : DrawCall := ⟨cexV1, cexV2, cexV3, fun _ => ⟨0, 255, 0⟩⟩

/-- Light direction used in the order-dependence example. -/
noncomputable def cexLight : Vec3 := ⟨0, 0, 1⟩

/-- Fragment on the rotation axis, used to instantiate the ring-shader bound. -/
noncomputable def c4frag : Fragment := ⟨⟨0, 0, 0⟩, ⟨0, 0, 0⟩, 0, 0⟩

/-!
IEEE-style model of the degenerate barycentric computation.  The real-number
model above cannot express what `1.0 / 0.0` does in `f32`; the `EFloat` type
adds the two infinities and NaN on top of exact (rational) finite values, with
the IEEE rules for the operations the inside-test uses.  Rounding is not
modelled: products of infinities/NaN are exact in IEEE arithmetic.
-/

/-- An `f32` value abstracted as exact-finite, infinite or NaN. -/
inductive EFloat where
  | nan : EFloat
  | pinf : EFloat
  | ninf : EFloat
  | fin : ℚ → EFloat
deriving DecidableEq

/-- Finiteness of an `EFloat`. -/
def EFloat.isFinite : EFloat → Bool
  | .fin _ => true
  | _ => false

/-- IEEE multiplication on `EFloat`: infinity times zero and anything times NaN
is NaN; signs propagate. -/
def efMul : EFloat → EFloat → EFloat
  | .nan, _ => .nan
  | .pinf, .nan => .nan
  | .ninf, .nan => .nan
  | .fin _, .nan => .nan
  | .fin a, .fin b => .fin (a * b)
  | .fin a, .pinf => if 0 < a then .pinf else if a < 0 then .ninf else .nan
  | .fin a, .ninf => if 0 < a then .ninf else if a < 0 then .pinf else .nan
  | .pinf, .fin b => if 0 < b then .pinf else if b < 0 then .ninf else .nan
  | .ninf, .fin b => if 0 < b then .ninf else if b < 0 then .pinf else .nan
  | .pinf, .pinf => .pinf
  | .pinf, .ninf => .ninf
  | .ninf, .pinf => .ninf
  | .ninf, .ninf => .pinf

/-- IEEE addition on `EFloat`: opposite infinities and anything plus NaN is NaN. -/
def efAdd : EFloat → EFloat → EFloat
  | .nan, _ => .nan
  | .pinf, .nan => .nan
  | .ninf, .nan => .nan
  | .fin _, .nan => .nan
  | .fin a, .fin b => .fin (a + b)
  | .fin _, .pinf => .pinf
  | .fin _, .ninf => .ninf
  | .pinf, .fin _ => .pinf
  | .ninf, .fin _ => .ninf
  | .pinf, .pinf => .pinf
  | .pinf, .ninf => .nan
  | .ninf, .pinf => .nan
  | .ninf, .ninf => .ninf

/-- IEEE `<=` on `EFloat`: any comparison involving NaN is false. -/
def efLe : EFloat → EFloat → Bool
  | .nan, _ => false
  | .pinf, .nan => false
  | .ninf, .nan => false
  | .fin _, .nan => false
  | .ninf, _ => true
  | .fin _, .ninf => false
  | .pinf, .ninf => false
  | .fin a, .fin b => decide (a ≤ b)
  | .fin _, .pinf => true
  | .pinf, .pinf => true
  | .pinf, .fin _ => false

/-- IEEE `1.0 / x` on `EFloat`.  Division of 1.0 by zero yields infinity (the
positive one here: the denominator `dot00 * dot11 - dot01 * dot01` of the
source is produced as `+0.0` when it vanishes).  Division by an infinity
yields zero. -/
def efDiv1 : EFloat → EFloat
  | .nan => .nan
  | .pinf => .fin 0
  | .ninf => .fin 0
  | .fin a => if a = 0 then .pinf else .fin (1 / a)

/-- Barycentric denominator of the projected triangle (main.rs line 699),
computed exactly from the projected points. -/
def baryDenomQ (p1 p2 p3 : ℚ × ℚ) : ℚ :=
  let v0 := (p2.1 - p1.1, p2.2 - p1.2)
  let v1l := (p3.1 - p1.1, p3.2 - p1.2)
  let dot00 := v0.1 * v0.1 + v0.2 * v0.2
  let dot01 := v0.1 * v1l.1 + v0.2 * v1l.2
  let dot11 := v1l.1 * v1l.1 + v1l.2 * v1l.2
  dot00 * dot11 - dot01 * dot01

/-- Barycentric weights `(u, v)` computed with IEEE semantics
(main.rs lines 689-701). -/
def efBary (p1 p2 p3 : ℚ × ℚ) (px py : ℚ) : EFloat × EFloat :=
  let v0 := (p2.1 - p1.1, p2.2 - p1.2)
  let v1l := (p3.1 - p1.1, p3.2 - p1.2)
  let v2l := (px - p1.1, py - p1.2)
  let dot00 := v0.1 * v0.1 + v0.2 * v0.2
  let dot01 := v0.1 * v1l.1 + v0.2 * v1l.2
  let dot02 := v0.1 * v2l.1 + v0.2 * v2l.2
  let dot11 := v1l.1 * v1l.1 + v1l.2 * v1l.2
  let dot12 := v1l.1 * v2l.1 + v1l.2 * v2l.2
  let inv_denom := efDiv1 (.fin (baryDenomQ p1 p2 p3))
  (efMul (.fin (dot11 * dot02 - dot01 * dot12)) inv_denom,
    efMul (.fin (dot00 * dot12 - dot01 * dot02)) inv_denom)

/-- Inside-test with IEEE semantics (main.rs line 703):
`u >= 0.0 && v >= 0.0 && u + v <= 1.0`. -/
def efInside (u v : EFloat) : Bool :=
  efLe (.fin 0) u && efLe (.fin 0) v && efLe (efAdd u v) (.fin 1)

/-- Whether the pixel at `(px, py)` passes the IEEE inside-test. -/
def efPixelInside (p1 p2 p3 : ℚ × ℚ) (px py : ℚ) : Bool :=
  efInside (efBary p1 p2 p3 px py).1 (efBary p1 p2 p3 px py).2

/-- Pixel loop of the rasterizer under IEEE semantics, abstracting over whatever
the guarded body would write to the buffers: a pixel mutates the state only if
it passes the inside-test. -/
def efRasterLoop {α : Type} (p1 p2 p3 : ℚ × ℚ) (pixels : List (ℚ × ℚ))
    (writeAt : ℚ × ℚ → α → α) (st : α) : α :=
  pixels.foldl (fun s q => if efPixelInside p1 p2 p3 q.1 q.2 then writeAt q s else s) st

/-! ### Range of the Rust fractional part -/

theorem rustFract_mem_Ioo (x : ℝ) : rustFract x ∈ Set.Ioo (-1 : ℝ) 1 := by
  unfold rustFract rustTrunc
  split
  · refine ⟨?_, ?_⟩
    · have h1 : ((⌊x⌋ : ℝ)) ≤ x := Int.floor_le x
      linarith
    · have h2 : x < ⌊x⌋ + 1 := Int.lt_floor_add_one x
      linarith
  · refine ⟨?_, ?_⟩
    · have h2 : ((⌈x⌉ : ℝ)) < x + 1 := Int.ceil_lt_add_one x
      linarith
    · have h1 : x ≤ ((⌈x⌉ : ℝ)) := Int.le_ceil x
      linarith

theorem abs_noise_lt_one (q : Vec3) : |noise_3d q| < 1 := by
  have h := rustFract_mem_Ioo
    (Real.sin q.x * 43758.5453 + Real.sin q.y * 22578.1459 + Real.sin q.z * 19134.3872)
  rw [abs_lt]
  exact ⟨h.1, h.2⟩

theorem abs_noise_mul_lt (q : Vec3) (a : ℝ) (ha : 0 < a) : |noise_3d q * a| < a := by
  rw [abs_mul, abs_of_pos ha]
  nlinarith [abs_noise_lt_one q, abs_nonneg (noise_3d q)]

theorem noise_cex_eq : noise_3d ⟨-(Real.pi / 2), 0, 0⟩ = -(5453 / 10000 : ℝ) := by
  have hs : Real.sin (-(Real.pi / 2)) = -1 := by rw [Real.sin_neg, Real.sin_pi_div_two]
  show rustFract (Real.sin (-(Real.pi / 2)) * 43758.5453 + Real.sin 0 * 22578.1459 +
    Real.sin 0 * 19134.3872) = -(5453 / 10000 : ℝ)
  rw [hs, Real.sin_zero]
  rw [show (-1 : ℝ) * 43758.5453 + 0 * 22578.1459 + 0 * 19134.3872 = -43758.5453 by norm_num]
  unfold rustFract rustTrunc
  rw [if_neg (by norm_num)]
  rw [show ⌈(-43758.5453 : ℝ)⌉ = -43758 by rw [Int.ceil_eq_iff]; norm_num]
  norm_num

/-- Claim C5, amended: `noise_3d` returns a value in the open interval (-1, 1) for
every input.  The claimed interval [0, 1) fails because Rust `fract` is negative
for a negative sum of scaled sines. -/
theorem claim_C5_noise_range (p : Vec3) : noise_3d p ∈ Set.Ioo (-1 : ℝ) 1 :=
  rustFract_mem_Ioo _

/-- Claim C5, counterexample: at `p = (-π/2, 0, 0)` the sum of scaled sines is
`-43758.5453`, whose Rust fractional part is `-0.5453`, so `noise_3d` returns a
negative value, outside [0, 1). -/
theorem claim_C5_counterexample : noise_3d ⟨-(Real.pi / 2), 0, 0⟩ < 0 := by
  rw [noise_cex_eq]
  norm_num

/-! ### The fbm octave loop -/

theorem fbmAux_zero (p : Vec3) (v a f m : ℝ) : fbmAux p 0 v a f m = (v, m) := rfl

theorem fbmAux_succ (p : Vec3) (n : ℕ) (v a f m : ℝ) :
    fbmAux p (n + 1) v a f m =
      fbmAux p n (v + noise_3d ⟨p.x * f, p.y * f, p.z * f⟩ * a) (a * 0.5) (f * 2.0) (m + a) :=
  rfl

theorem fbmAux_dist_lt (p : Vec3) (n : ℕ) :
    ∀ v a f m : ℝ, 0 < a →
      |(fbmAux p (n + 1) v a f m).1 - v| < (fbmAux p (n + 1) v a f m).2 - m := by
  induction n with
  | zero =>
    intro v a f m ha
    rw [fbmAux_succ, fbmAux_zero]
    have hn := abs_noise_mul_lt ⟨p.x * f, p.y * f, p.z * f⟩ a ha
    show |v + noise_3d ⟨p.x * f, p.y * f, p.z * f⟩ * a - v| < m + a - m
    rw [show v + noise_3d ⟨p.x * f, p.y * f, p.z * f⟩ * a - v
      = noise_3d ⟨p.x * f, p.y * f, p.z * f⟩ * a from by ring]
    linarith
  | succ k ih =>
    intro v a f m ha
    rw [fbmAux_succ]
    have ha' : 0 < a * 0.5 := by linarith
    have h1 := ih (v + noise_3d ⟨p.x * f, p.y * f, p.z * f⟩ * a) (a * 0.5) (f * 2.0) (m + a) ha'
    have hn := abs_noise_mul_lt ⟨p.x * f, p.y * f, p.z * f⟩ a ha
    have htri := abs_sub_le
      ((fbmAux p (k + 1) (v + noise_3d ⟨p.x * f, p.y * f, p.z * f⟩ * a) (a * 0.5) (f * 2.0)
        (m + a)).1)
      (v + noise_3d ⟨p.x * f, p.y * f, p.z * f⟩ * a) v
    have heq : |v + noise_3d ⟨p.x * f, p.y * f, p.z * f⟩ * a - v|
        = |noise_3d ⟨p.x * f, p.y * f, p.z * f⟩ * a| := by
      rw [show v + noise_3d ⟨p.x * f, p.y * f, p.z * f⟩ * a - v
        = noise_3d ⟨p.x * f, p.y * f, p.z * f⟩ * a from by ring]
    linarith

/-- Claim C1, amended: for `octaves ≥ 1`, `fbm` returns a value in the open
interval (-1, 1).  The claimed interval [0, 1] fails because the underlying
noise can be negative; the normalized accumulation is instead strictly bounded
by the amplitude sum in absolute value. -/
theorem claim_C1_fbm_range (p : Vec3) (octaves : ℤ) (h : 1 ≤ octaves) :
    fbm p octaves ∈ Set.Ioo (-1 : ℝ) 1 := by
  obtain ⟨n, hn⟩ : ∃ n : ℕ, octaves.toNat = n + 1 := ⟨octaves.toNat - 1, by omega⟩
  show (fbmAux p octaves.toNat 0 0.5 1.0 0).1 / (fbmAux p octaves.toNat 0 0.5 1.0 0).2
    ∈ Set.Ioo (-1 : ℝ) 1
  rw [hn]
  have hb := fbmAux_dist_lt p n 0 0.5 1.0 0 (by norm_num)
  rw [sub_zero, sub_zero] at hb
  have h2 : 0 < (fbmAux p (n + 1) 0 0.5 1.0 0).2 := lt_of_le_of_lt (abs_nonneg _) hb
  rw [Set.mem_Ioo, ← abs_lt, abs_div, abs_of_pos h2, div_lt_one h2]
  exact hb

/-- Claim C1, witness: the bound instantiated at the origin with one octave. -/
theorem claim_C1_witness : (1 : ℤ) ≤ 1 ∧ fbm ⟨0, 0, 0⟩ 1 ∈ Set.Ioo (-1 : ℝ) 1 :=
  ⟨le_refl 1, claim_C1_fbm_range ⟨0, 0, 0⟩ 1 (le_refl 1)⟩

/-- Claim C1, counterexample: with one octave at `p = (-π/2, 0, 0)`, `fbm`
returns `-0.5453`, outside the claimed interval [0, 1]. -/
theorem claim_C1_counterexample : fbm ⟨-(Real.pi / 2), 0, 0⟩ 1 < 0 := by
  show (fbmAux ⟨-(Real.pi / 2), 0, 0⟩ (1 : ℤ).toNat 0 0.5 1.0 0).1 /
    (fbmAux ⟨-(Real.pi / 2), 0, 0⟩ (1 : ℤ).toNat 0 0.5 1.0 0).2 < 0
  rw [show ((1 : ℤ).toNat) = 1 from rfl, fbmAux_succ, fbmAux_zero]
  show (0 + noise_3d ⟨-(Real.pi / 2) * 1.0, 0 * 1.0, 0 * 1.0⟩ * 0.5) / (0 + 0.5) < 0
  rw [show (⟨-(Real.pi / 2) * 1.0, 0 * 1.0, 0 * 1.0⟩ : Vec3) = ⟨-(Real.pi / 2), 0, 0⟩ by
    norm_num]
  rw [noise_cex_eq]
  norm_num

/-! ### Clamp range and the ring shader alpha band -/

theorem rustClamp_mem_Icc (x lo hi : ℝ) (h : lo ≤ hi) : rustClamp x lo hi ∈ Set.Icc lo hi := by
  unfold rustClamp
  split_ifs with h1 h2
  · exact ⟨le_refl _, h⟩
  · exact ⟨h, le_refl _⟩
  · push_neg at h1 h2
    exact ⟨h1, h2⟩

/-- Claim C4: the ring shader returns alpha 0 for any fragment whose distance
from the vertical axis is below 1.3 or above 2.0, and alpha within
[0.3, 0.95] whenever that distance lies in the band [1.3, 2.0]. -/
theorem claim_C4_ring_alpha (f : Fragment) :
    (Real.sqrt (f.position.x ^ 2 + f.position.z ^ 2) < 1.3 ∨
        Real.sqrt (f.position.x ^ 2 + f.position.z ^ 2) > 2.0 →
      (ring_shader f).2 = 0) ∧
    (1.3 ≤ Real.sqrt (f.position.x ^ 2 + f.position.z ^ 2) ∧
        Real.sqrt (f.position.x ^ 2 + f.position.z ^ 2) ≤ 2.0 →
      (ring_shader f).2 ∈ Set.Icc (0.3 : ℝ) 0.95) := by
  constructor
  · intro h
    show (if Real.sqrt (f.position.x ^ 2 + f.position.z ^ 2) < 1.3 ∨
        Real.sqrt (f.position.x ^ 2 + f.position.z ^ 2) > 2.0 then ((⟨0, 0, 0⟩ : Color), (0 : ℝ))
      else ringShaderBody f (Real.sqrt (f.position.x ^ 2 + f.position.z ^ 2))).2 = 0
    rw [if_pos h]
  · intro h
    show (if Real.sqrt (f.position.x ^ 2 + f.position.z ^ 2) < 1.3 ∨
        Real.sqrt (f.position.x ^ 2 + f.position.z ^ 2) > 2.0 then ((⟨0, 0, 0⟩ : Color), (0 : ℝ))
      else ringShaderBody f (Real.sqrt (f.position.x ^ 2 + f.position.z ^ 2))).2
      ∈ Set.Icc (0.3 : ℝ) 0.95
    rw [if_neg (by rw [not_or]; exact ⟨not_lt.mpr h.1, not_lt.mpr h.2⟩)]
    show rustClamp ((2.0 - Real.sqrt (f.position.x ^ 2 + f.position.z ^ 2)) / (2.0 - 1.3) *
        (if fbm ⟨f.position.x * 8.0, 0.0, f.position.z * 8.0⟩ 3 > 0.7 then (0.3 : ℝ) else 1.0) *
        noise_3d ⟨f.position.x * 25.0, 0.0, f.position.z * 25.0⟩) 0.3 0.95
      ∈ Set.Icc (0.3 : ℝ) 0.95
    exact rustClamp_mem_Icc _ _ _ (by norm_num)

/-- Claim C4, witness: a fragment on the rotation axis has radius 0 < 1.3 and
alpha 0. -/
theorem claim_C4_witness :
    Real.sqrt (c4frag.position.x ^ 2 + c4frag.position.z ^ 2) < 1.3 ∧
      (ring_shader c4frag).2 = 0 := by
  have h : Real.sqrt (c4frag.position.x ^ 2 + c4frag.position.z ^ 2) < 1.3 := by
    show Real.sqrt ((0 : ℝ) ^ 2 + (0 : ℝ) ^ 2) < 1.3
    rw [show (0 : ℝ) ^ 2 + (0 : ℝ) ^ 2 = 0 by norm_num, Real.sqrt_zero]
    norm_num
  exact ⟨h, (claim_C4_ring_alpha c4frag).1 (Or.inl h)⟩

/-! ### Normalizing a zero-length vector -/

/-- Claim C6: a vector of length zero normalizes to the zero vector; the division
branch is taken only for strictly positive length. -/
theorem claim_C6_normalize_zero (v : Vec3) (h : v.length = 0) : v.normalize = ⟨0, 0, 0⟩ := by
  unfold Vec3.normalize
  rw [if_neg (show ¬ v.length > 0 by rw [h]; exact lt_irrefl 0)]

/-- Claim C6, witness: the zero vector has length zero and normalizes to itself. -/
theorem claim_C6_witness :
    Vec3.length ⟨0, 0, 0⟩ = 0 ∧ Vec3.normalize ⟨0, 0, 0⟩ = ⟨0, 0, 0⟩ := by
  have h : Vec3.length ⟨0, 0, 0⟩ = 0 := by
    show Real.sqrt ((0 : ℝ) * 0 + 0 * 0 + 0 * 0) = 0
    rw [show (0 : ℝ) * 0 + 0 * 0 + 0 * 0 = 0 by norm_num, Real.sqrt_zero]
  exact ⟨h, claim_C6_normalize_zero _ h⟩

/-! ### Colour interpolation boundaries -/

theorem rustU8_natCast (n : ℕ) (hn : n ≤ 255) : rustU8 (n : ℝ) = ⟨n, by omega⟩ := by
  unfold rustU8
  rw [if_neg (not_lt.mpr (Nat.cast_nonneg n))]
  apply Fin.ext
  show min ⌊(n : ℝ)⌋.toNat 255 = n
  rw [Int.floor_natCast]
  omega

/-- Claim C9: mixing with parameter 0 returns the first colour exactly, and with
parameter 1 the second, for all colours. -/
theorem claim_C9_mix_boundaries (a b : Color) : a.mix b 0 = a ∧ a.mix b 1 = b := by
  have h0 : rustClamp 0 0 1 = (0 : ℝ) := by unfold rustClamp; norm_num
  have h1 : rustClamp 1 0 1 = (1 : ℝ) := by unfold rustClamp; norm_num
  constructor
  · have hc : ∀ m k : Fin 256,
        rustU8 ((m.val : ℝ) * (1 - rustClamp 0 0 1) + (k.val : ℝ) * rustClamp 0 0 1) = m := by
      intro m k
      rw [h0, show ((m.val : ℝ) * (1 - 0) + (k.val : ℝ) * 0) = (m.val : ℝ) by ring,
        rustU8_natCast m.val (by omega)]
    show (⟨rustU8 ((a.r.val : ℝ) * (1 - rustClamp 0 0 1) + (b.r.val : ℝ) * rustClamp 0 0 1),
      rustU8 ((a.g.val : ℝ) * (1 - rustClamp 0 0 1) + (b.g.val : ℝ) * rustClamp 0 0 1),
      rustU8 ((a.b.val : ℝ) * (1 - rustClamp 0 0 1) + (b.b.val : ℝ) * rustClamp 0 0 1)⟩
        : Color) = a
    rw [hc a.r b.r, hc a.g b.g, hc a.b b.b]
  · have hc : ∀ m k : Fin 256,
        rustU8 ((m.val : ℝ) * (1 - rustClamp 1 0 1) + (k.val : ℝ) * rustClamp 1 0 1) = k := by
      intro m k
      rw [h1, show ((m.val : ℝ) * (1 - 1) + (k.val : ℝ) * 1) = (k.val : ℝ) by ring,
        rustU8_natCast k.val (by omega)]
    show (⟨rustU8 ((a.r.val : ℝ) * (1 - rustClamp 1 0 1) + (b.r.val : ℝ) * rustClamp 1 0 1),
      rustU8 ((a.g.val : ℝ) * (1 - rustClamp 1 0 1) + (b.g.val : ℝ) * rustClamp 1 0 1),
      rustU8 ((a.b.val : ℝ) * (1 - rustClamp 1 0 1) + (b.b.val : ℝ) * rustClamp 1 0 1)⟩
        : Color) = b
    rw [hc a.r b.r, hc a.g b.g, hc a.b b.b]

/-! ### Rotation about the vertical axis -/

/-- Claim C10: `rotate_y` leaves the y component unchanged for every vector and
angle. -/
theorem claim_C10_rotate_y_y (v : Vec3) (angle : ℝ) : (v.rotate_y angle).y = v.y := rfl

/-! ### Cellwise description of the pixel loops

Each iteration of the rasterizer's double loop reads and writes only the cell
at its own flat index `y * WIDTH + x`, so the loop acts independently on every
cell.  The lemmas below extract the effect of a whole loop on a single cell. -/

theorem applyAt_cell (i j : ℕ) (f : Cell → Cell) (st : RenderState) :
    (applyAt i f st).cell j = if j = i then f (st.cell i) else st.cell j := by
  simp only [applyAt, RenderState.cell]
  by_cases hj : j = i
  · subst hj
    rw [Function.update_same, Function.update_same, if_pos rfl]
  · rw [Function.update_noteq hj, Function.update_noteq hj, if_neg hj]

theorem rowFold_cell_of_notmem (stepAt : ℕ → ℕ → Cell → Cell) (y i : ℕ) :
    ∀ xs : List ℕ, (∀ x ∈ xs, y * WIDTH + x ≠ i) → ∀ st : RenderState,
      (rowFold stepAt y xs st).cell i = st.cell i := by
  intro xs
  induction xs with
  | nil =>
    intro _ st
    rfl
  | cons a tl ih =>
    intro h st
    show (rowFold stepAt y tl (applyAt (y * WIDTH + a) (stepAt a y) st)).cell i = st.cell i
    rw [ih (fun x hx => h x (List.mem_cons_of_mem a hx)) _]
    rw [applyAt_cell, if_neg (fun he => h a (List.mem_cons_self a tl) he.symm)]

theorem rowFold_cell_of_mem (stepAt : ℕ → ℕ → Cell → Cell) (y x0 : ℕ) :
    ∀ xs : List ℕ, xs.Nodup → x0 ∈ xs → ∀ st : RenderState,
      (rowFold stepAt y xs st).cell (y * WIDTH + x0) =
        stepAt x0 y (st.cell (y * WIDTH + x0)) := by
  intro xs
  induction xs with
  | nil =>
    intro _ hx
    cases hx
  | cons a tl ih =>
    intro hnd hx st
    show (rowFold stepAt y tl (applyAt (y * WIDTH + a) (stepAt a y) st)).cell (y * WIDTH + x0)
      = stepAt x0 y (st.cell (y * WIDTH + x0))
    rcases List.mem_cons.mp hx with rfl | hmem
    · rw [rowFold_cell_of_notmem stepAt y _ tl
        (by
          intro x hxtl he
          have hxx : x = x0 := Nat.add_left_cancel he
          subst hxx
          exact (List.nodup_cons.mp hnd).1 hxtl) _]
      rw [applyAt_cell, if_pos rfl]
    · have hne : a ≠ x0 := fun he => (List.nodup_cons.mp hnd).1 (he ▸ hmem)
      rw [ih (List.nodup_cons.mp hnd).2 hmem _]
      rw [applyAt_cell, if_neg (fun he => hne (Nat.add_left_cancel he).symm)]

theorem rowFold_cell_of_ne_row (stepAt : ℕ → ℕ → Cell → Cell) (y y0 x0 : ℕ) (xs : List ℕ)
    (st : RenderState) (hx0 : x0 < WIDTH) (hxs : ∀ x ∈ xs, x < WIDTH) (hy : y ≠ y0) :
    (rowFold stepAt y xs st).cell (y0 * WIDTH + x0) = st.cell (y0 * WIDTH + x0) := by
  apply rowFold_cell_of_notmem
  intro x hx he
  have hxw := hxs x hx
  have hw : WIDTH = 800 := rfl
  rw [hw] at he hx0 hxw
  omega

theorem colFold_cell (stepAt : ℕ → ℕ → Cell → Cell) (xs : List ℕ) (x0 y0 : ℕ)
    (hx0 : x0 < WIDTH) (hxs : ∀ x ∈ xs, x < WIDTH) (hndx : xs.Nodup) :
    ∀ ys : List ℕ, ys.Nodup → ∀ st : RenderState,
      (ys.foldl (fun s y => rowFold stepAt y xs s) st).cell (y0 * WIDTH + x0) =
        if y0 ∈ ys ∧ x0 ∈ xs then stepAt x0 y0 (st.cell (y0 * WIDTH + x0))
        else st.cell (y0 * WIDTH + x0) := by
  intro ys
  induction ys with
  | nil =>
    intro _ st
    rw [if_neg (fun hc => (List.not_mem_nil y0) hc.1)]
    rfl
  | cons b tl ih =>
    intro hnd st
    show (tl.foldl (fun s y => rowFold stepAt y xs s) (rowFold stepAt b xs st)).cell
      (y0 * WIDTH + x0) = _
    rcases eq_or_ne b y0 with rfl | hne
    · have hnotl : b ∉ tl := (List.nodup_cons.mp hnd).1
      rw [ih (List.nodup_cons.mp hnd).2 (rowFold stepAt b xs st)]
      rw [if_neg (fun hc => hnotl hc.1)]
      by_cases hmem : x0 ∈ xs
      · rw [rowFold_cell_of_mem stepAt b x0 xs hndx hmem st]
        rw [if_pos ⟨List.mem_cons_self b tl, hmem⟩]
      · rw [rowFold_cell_of_notmem stepAt b _ xs
          (by
            intro x hx he
            have hxx : x = x0 := Nat.add_left_cancel he
            subst hxx
            exact hmem hx) st]
        rw [if_neg (fun hc => hmem hc.2)]
    · rw [ih (List.nodup_cons.mp hnd).2 (rowFold stepAt b xs st)]
      rw [rowFold_cell_of_ne_row stepAt b y0 x0 xs st hx0 hxs hne]
      have hmemiff : (y0 ∈ tl ∧ x0 ∈ xs) ↔ (y0 ∈ b :: tl ∧ x0 ∈ xs) := by
        rw [List.mem_cons]
        have : ¬ y0 = b := fun hc => hne hc.symm
        tauto
      rw [if_congr hmemiff rfl rfl]

theorem rasterLoop_cell (minX maxX minY maxY : ℕ) (stepAt : ℕ → ℕ → Cell → Cell)
    (st : RenderState) (x0 y0 : ℕ) (hmaxX : maxX < WIDTH) (hx0 : x0 < WIDTH) :
    (rasterLoop minX maxX minY maxY stepAt st).cell (y0 * WIDTH + x0) =
      if minX ≤ x0 ∧ x0 ≤ maxX ∧ minY ≤ y0 ∧ y0 ≤ maxY
      then stepAt x0 y0 (st.cell (y0 * WIDTH + x0))
      else st.cell (y0 * WIDTH + x0) := by
  have hxs : ∀ x ∈ List.range' minX (maxX + 1 - minX), x < WIDTH := by
    intro x hx
    rw [List.mem_range'_1] at hx
    omega
  have h := colFold_cell stepAt (List.range' minX (maxX + 1 - minX)) x0 y0 hx0 hxs
    (List.nodup_range' _ _) (List.range' minY (maxY + 1 - minY)) (List.nodup_range' _ _) st
  have hiff : (y0 ∈ List.range' minY (maxY + 1 - minY) ∧
      x0 ∈ List.range' minX (maxX + 1 - minX)) ↔
      (minX ≤ x0 ∧ x0 ≤ maxX ∧ minY ≤ y0 ∧ y0 ≤ maxY) := by
    rw [List.mem_range'_1, List.mem_range'_1]
    omega
  rw [if_congr hiff rfl rfl] at h
  exact h

theorem rustUsize_le (x : ℝ) (n : ℕ) (h : x ≤ (n : ℝ)) : rustUsize x ≤ n := by
  unfold rustUsize
  have h1 := Int.floor_le_floor h
  rw [Int.floor_natCast] at h1
  omega

theorem bboxMaxX_lt (v1 v2 v3 : Vec3) : bboxMaxX v1 v2 v3 < WIDTH := by
  have h : min (max (max (projX v1) (projX v2)) (projX v3)) ((WIDTH : ℝ) - 1)
      ≤ ((799 : ℕ) : ℝ) :=
    le_trans (min_le_right _ _) (by norm_num [WIDTH])
  have h2 := rustUsize_le _ _ h
  have hw : WIDTH = 800 := rfl
  unfold bboxMaxX
  omega

open scoped Classical in
theorem render_triangle_cell (st : RenderState) (v1 v2 v3 light_dir : Vec3)
    (shader : Fragment → Color) (time : ℝ) (x0 y0 : ℕ) (hx0 : x0 < WIDTH) :
    (render_triangle st v1 v2 v3 light_dir shader time).cell (y0 * WIDTH + x0) =
      if inBBox v1 v2 v3 x0 y0
      then solidCellStep v1 v2 v3 light_dir shader time x0 y0 (st.cell (y0 * WIDTH + x0))
      else st.cell (y0 * WIDTH + x0) := by
  unfold render_triangle
  rw [rasterLoop_cell _ _ _ _ _ _ _ _ (bboxMaxX_lt v1 v2 v3) hx0]
  by_cases hb : inBBox v1 v2 v3 x0 y0
  · rw [if_pos (show bboxMinX v1 v2 v3 ≤ x0 ∧ x0 ≤ bboxMaxX v1 v2 v3 ∧
      bboxMinY v1 v2 v3 ≤ y0 ∧ y0 ≤ bboxMaxY v1 v2 v3 from hb), if_pos hb]
  · rw [if_neg (show ¬ (bboxMinX v1 v2 v3 ≤ x0 ∧ x0 ≤ bboxMaxX v1 v2 v3 ∧
      bboxMinY v1 v2 v3 ≤ y0 ∧ y0 ≤ bboxMaxY v1 v2 v3) from hb), if_neg hb]

open scoped Classical in
theorem render_ring_triangle_cell (st : RenderState) (v1 v2 v3 light_dir : Vec3)
    (time : ℝ) (x0 y0 : ℕ) (hx0 : x0 < WIDTH) :
    (render_ring_triangle st v1 v2 v3 light_dir time).cell (y0 * WIDTH + x0) =
      if inBBox v1 v2 v3 x0 y0
      then ringCellStep v1 v2 v3 light_dir time x0 y0 (st.cell (y0 * WIDTH + x0))
      else st.cell (y0 * WIDTH + x0) := by
  unfold render_ring_triangle
  rw [rasterLoop_cell _ _ _ _ _ _ _ _ (bboxMaxX_lt v1 v2 v3) hx0]
  by_cases hb : inBBox v1 v2 v3 x0 y0
  · rw [if_pos (show bboxMinX v1 v2 v3 ≤ x0 ∧ x0 ≤ bboxMaxX v1 v2 v3 ∧
      bboxMinY v1 v2 v3 ≤ y0 ∧ y0 ≤ bboxMaxY v1 v2 v3 from hb), if_pos hb]
  · rw [if_neg (show ¬ (bboxMinX v1 v2 v3 ≤ x0 ∧ x0 ≤ bboxMaxX v1 v2 v3 ∧
      bboxMinY v1 v2 v3 ≤ y0 ∧ y0 ≤ bboxMaxY v1 v2 v3) from hb), if_neg hb]

/-! ### Lambertian intensity of the fragments -/

/-- Claim C7: every fragment built by the opaque rasterizer carries intensity
`max(dot(normal, lightDir), 0) * 0.8 + 0.2` and every fragment built by the
translucent ring rasterizer carries `abs(dot(normal, lightDir)) * 0.8 + 0.2`,
with the flat per-triangle normal `normalize(cross(v2 - v1, v3 - v1))`. -/
theorem claim_C7_intensity (v1 v2 v3 light_dir : Vec3) (time : ℝ) (x y : ℕ) :
    (solidFragment v1 v2 v3 light_dir time x y).intensity =
        max (((v2.sub v1).cross (v3.sub v1)).normalize.dot light_dir) 0 * 0.8 + 0.2 ∧
      (solidFragment v1 v2 v3 light_dir time x y).normal =
        ((v2.sub v1).cross (v3.sub v1)).normalize ∧
      (ringFragment v1 v2 v3 light_dir time x y).intensity =
        |((v2.sub v1).cross (v3.sub v1)).normalize.dot light_dir| * 0.8 + 0.2 ∧
      (ringFragment v1 v2 v3 light_dir time x y).normal =
        ((v2.sub v1).cross (v3.sub v1)).normalize :=
  ⟨rfl, rfl, rfl, rfl⟩

/-! ### The ring rasterizer and the depth buffer -/

theorem ringCellStep_snd (v1 v2 v3 light_dir : Vec3) (time : ℝ) (x y : ℕ) (c : Cell) :
    (ringCellStep v1 v2 v3 light_dir time x y c).2 = c.2 := by
  unfold ringCellStep
  split_ifs <;> rfl

/-- Claim C8: `render_ring_triangle` leaves the depth buffer untouched, and every
colour cell is either unchanged or the alpha-composite of the ring shader output
over the previous contents of that cell, regardless of depth. -/
theorem claim_C8_ring_overlay (st : RenderState) (v1 v2 v3 light_dir : Vec3) (time : ℝ) :
    (render_ring_triangle st v1 v2 v3 light_dir time).zbuffer = st.zbuffer ∧
      ∀ idx : ℕ,
        (render_ring_triangle st v1 v2 v3 light_dir time).buffer idx = st.buffer idx ∨
        ((ring_shader (ringFragment v1 v2 v3 light_dir time (idx % WIDTH) (idx / WIDTH))).2
            > 0.01 ∧
          (render_ring_triangle st v1 v2 v3 light_dir time).buffer idx =
            ringBlend
              (ring_shader (ringFragment v1 v2 v3 light_dir time (idx % WIDTH) (idx / WIDTH))).1
              (ring_shader (ringFragment v1 v2 v3 light_dir time (idx % WIDTH) (idx / WIDTH))).2
              (st.buffer idx)) := by
  have hwpos : 0 < WIDTH := by norm_num [WIDTH]
  constructor
  · funext idx
    have hidx : idx / WIDTH * WIDTH + idx % WIDTH = idx := by
      rw [Nat.mul_comm]
      exact Nat.div_add_mod idx WIDTH
    have h := render_ring_triangle_cell st v1 v2 v3 light_dir time (idx % WIDTH) (idx / WIDTH)
      (Nat.mod_lt _ hwpos)
    rw [hidx] at h
    show ((render_ring_triangle st v1 v2 v3 light_dir time).cell idx).2 = (st.cell idx).2
    rw [h]
    by_cases hb : inBBox v1 v2 v3 (idx % WIDTH) (idx / WIDTH)
    · rw [if_pos hb, ringCellStep_snd]
    · rw [if_neg hb]
  · intro idx
    have hidx : idx / WIDTH * WIDTH + idx % WIDTH = idx := by
      rw [Nat.mul_comm]
      exact Nat.div_add_mod idx WIDTH
    have h := render_ring_triangle_cell st v1 v2 v3 light_dir time (idx % WIDTH) (idx / WIDTH)
      (Nat.mod_lt _ hwpos)
    rw [hidx] at h
    have hb1 : (render_ring_triangle st v1 v2 v3 light_dir time).buffer idx =
        ((render_ring_triangle st v1 v2 v3 light_dir time).cell idx).1 := rfl
    rw [hb1, h]
    by_cases hcov : inBBox v1 v2 v3 (idx % WIDTH) (idx / WIDTH)
    · rw [if_pos hcov]
      unfold ringCellStep
      by_cases hin : insideTri v1 v2 v3 (idx % WIDTH) (idx / WIDTH)
      · rw [if_pos hin]
        by_cases ha :
          (ring_shader (ringFragment v1 v2 v3 light_dir time (idx % WIDTH) (idx / WIDTH))).2
            > 0.01
        · rw [if_pos ha]
          exact Or.inr ⟨ha, rfl⟩
        · rw [if_neg ha]
          exact Or.inl rfl
      · rw [if_neg hin]
        exact Or.inl rfl
    · rw [if_neg hcov]
      exact Or.inl rfl

/-! ### Order (in)dependence of depth-tested compositing -/

open scoped Classical in
theorem callCellStep_eq (light_dir : Vec3) (time : ℝ) (x y : ℕ) (c : DrawCall) (cell : Cell) :
    callCellStep light_dir time x y c cell =
      if coversPixel c x y
      then depthWrite (zAtPixel c x y) (colAtPixel light_dir time c x y) cell
      else cell := by
  unfold callCellStep coversPixel
  by_cases hb : inBBox c.v1 c.v2 c.v3 x y
  · rw [if_pos hb]
    by_cases hin : insideTri c.v1 c.v2 c.v3 x y
    · rw [if_pos (show inBBox c.v1 c.v2 c.v3 x y ∧ insideTri c.v1 c.v2 c.v3 x y from
        ⟨hb, hin⟩)]
      unfold solidCellStep depthWrite zAtPixel colAtPixel
      rw [if_pos hin]
    · rw [if_neg (show ¬ (inBBox c.v1 c.v2 c.v3 x y ∧ insideTri c.v1 c.v2 c.v3 x y) from
        fun hc => hin hc.2)]
      unfold solidCellStep
      rw [if_neg hin]
  · rw [if_neg hb, if_neg (show ¬ (inBBox c.v1 c.v2 c.v3 x y ∧ insideTri c.v1 c.v2 c.v3 x y)
      from fun hc => hb hc.1)]

theorem renderCalls_cell (light_dir : Vec3) (time : ℝ) (x0 y0 : ℕ) (hx0 : x0 < WIDTH) :
    ∀ (calls : List DrawCall) (st : RenderState),
      (renderCalls light_dir time calls st).cell (y0 * WIDTH + x0) =
        calls.foldl (fun cell c => callCellStep light_dir time x0 y0 c cell)
          (st.cell (y0 * WIDTH + x0)) := by
  intro calls
  induction calls with
  | nil =>
    intro st
    rfl
  | cons c tl ih =>
    intro st
    show (renderCalls light_dir time tl
        (render_triangle st c.v1 c.v2 c.v3 light_dir c.shader time)).cell (y0 * WIDTH + x0)
      = List.foldl (fun cell c => callCellStep light_dir time x0 y0 c cell)
          (callCellStep light_dir time x0 y0 c (st.cell (y0 * WIDTH + x0))) tl
    rw [ih _]
    congr 1
    rw [render_triangle_cell _ _ _ _ _ _ _ _ _ hx0]
    rfl

open scoped Classical in
theorem depthWrite_comm_lt (z1 z2 : ℝ) (c1 c2 : ℕ) (h : z1 < z2) (cell : Cell) :
    depthWrite z2 c2 (depthWrite z1 c1 cell) = depthWrite z1 c1 (depthWrite z2 c2 cell) := by
  have hco : (z1 : WithBot ℝ) < (z2 : WithBot ℝ) := WithBot.coe_lt_coe.mpr h
  unfold depthWrite
  by_cases h1 : (z1 : WithBot ℝ) > cell.2
  · have h2 : (z2 : WithBot ℝ) > cell.2 := lt_trans h1 hco
    rw [if_pos h1, if_pos h2]
    dsimp only
    rw [if_pos hco, if_neg (lt_asymm hco)]
  · by_cases h2 : (z2 : WithBot ℝ) > cell.2
    · rw [if_neg h1, if_pos h2]
      dsimp only
      rw [if_neg (lt_asymm hco)]
    · rw [if_neg h1, if_neg h2, if_neg h1]

open scoped Classical in
theorem callCellStep_comm (light_dir : Vec3) (time : ℝ) (x y : ℕ) (a b : DrawCall)
    (hz : coversPixel a x y → coversPixel b x y → zAtPixel a x y ≠ zAtPixel b x y)
    (cell : Cell) :
    callCellStep light_dir time x y b (callCellStep light_dir time x y a cell) =
      callCellStep light_dir time x y a (callCellStep light_dir time x y b cell) := by
  simp only [callCellStep_eq]
  by_cases ha : coversPixel a x y
  · by_cases hb : coversPixel b x y
    · simp only [if_pos ha, if_pos hb]
      rcases lt_or_gt_of_ne (hz ha hb) with hlt | hgt
      · exact depthWrite_comm_lt _ _ _ _ hlt cell
      · exact (depthWrite_comm_lt _ _ _ _ hgt cell).symm
    · simp only [if_pos ha, if_neg hb]
  · by_cases hb : coversPixel b x y
    · simp only [if_neg ha, if_pos hb]
    · simp only [if_neg ha, if_neg hb]

/-- Claim C3, amended: opaque compositing through `render_triangle` is
order-independent at a pixel provided the triangles covering that pixel have
pairwise distinct interpolated depths there.  (Unrestricted order-independence
fails: the strict depth test `z > stored` lets the first-drawn triangle win a
tie, see the counterexample.) -/
theorem claim_C3_order_independent (light_dir : Vec3) (time : ℝ) (st : RenderState)
    (calls1 calls2 : List DrawCall) (x0 y0 : ℕ) (hx0 : x0 < WIDTH)
    (hperm : calls1.Perm calls2)
    (hz : calls1.Pairwise fun a b =>
      coversPixel a x0 y0 → coversPixel b x0 y0 → zAtPixel a x0 y0 ≠ zAtPixel b x0 y0) :
    (renderCalls light_dir time calls1 st).buffer (y0 * WIDTH + x0) =
      (renderCalls light_dir time calls2 st).buffer (y0 * WIDTH + x0) := by
  have hsym : Symmetric (fun a b : DrawCall =>
      coversPixel a x0 y0 → coversPixel b x0 y0 → zAtPixel a x0 y0 ≠ zAtPixel b x0 y0) :=
    fun a b hab hb ha => (hab ha hb).symm
  have hall := hz.forall hsym
  have hfold2 : calls1.foldl (fun cell c => callCellStep light_dir time x0 y0 c cell)
      (st.cell (y0 * WIDTH + x0))
      = calls2.foldl (fun cell c => callCellStep light_dir time x0 y0 c cell)
      (st.cell (y0 * WIDTH + x0)) := by
    apply hperm.foldl_eq'
    intro p hp q hq cell
    by_cases hpq : p = q
    · subst hpq
      rfl
    · exact callCellStep_comm light_dir time x0 y0 p q (hall hp hq hpq) cell
  show ((renderCalls light_dir time calls1 st).cell (y0 * WIDTH + x0)).1
    = ((renderCalls light_dir time calls2 st).cell (y0 * WIDTH + x0)).1
  rw [renderCalls_cell light_dir time x0 y0 hx0 calls1 st,
    renderCalls_cell light_dir time x0 y0 hx0 calls2 st, hfold2]

/-- Claim C3, witness: the order-independence theorem instantiated with a
singleton call list at pixel (0, 0). -/
theorem claim_C3_witness :
    (0 : ℕ) < WIDTH ∧
      (renderCalls cexLight 0 [cexRed] initState).buffer (0 * WIDTH + 0) =
        (renderCalls cexLight 0 [cexRed] initState).buffer (0 * WIDTH + 0) := by
  refine ⟨by norm_num [WIDTH], ?_⟩
  exact claim_C3_order_independent cexLight 0 initState [cexRed] [cexRed] 0 0
    (by norm_num [WIDTH]) (List.Perm.refl _) (by simp)

/-! ### Concrete evaluation of the order-dependence example -/

theorem rustUsize_eval (x : ℝ) (n : ℕ) (h1 : ⌊x⌋ = (n : ℤ)) : rustUsize x = n := by
  unfold rustUsize
  rw [h1]
  omega

theorem cex_projX1 : projX cexV1 = 400 := by norm_num [projX, cexV1, WIDTH]

theorem cex_projX2 : projX cexV2 = 2002 / 5 := by norm_num [projX, cexV2, WIDTH]

theorem cex_projX3 : projX cexV3 = 400 := by norm_num [projX, cexV3, WIDTH]

theorem cex_projY1 : projY cexV1 = 400 := by norm_num [projY, cexV1, HEIGHT]

theorem cex_projY2 : projY cexV2 = 400 := by norm_num [projY, cexV2, HEIGHT]

theorem cex_projY3 : projY cexV3 = 2002 / 5 := by norm_num [projY, cexV3, HEIGHT]

theorem cex_bminX : bboxMinX cexV1 cexV2 cexV3 = 400 := by
  unfold bboxMinX
  rw [cex_projX1, cex_projX2, cex_projX3]
  rw [show max (min (min (400 : ℝ) (2002 / 5)) 400) 0 = 400 by norm_num]
  exact rustUsize_eval _ _ (by norm_num)

theorem cex_bmaxX : bboxMaxX cexV1 cexV2 cexV3 = 400 := by
  unfold bboxMaxX
  rw [cex_projX1, cex_projX2, cex_projX3]
  rw [show min (max (max (400 : ℝ) (2002 / 5)) 400) ((WIDTH : ℝ) - 1) = 2002 / 5 by
    norm_num [WIDTH]]
  exact rustUsize_eval _ _ (by norm_num)

theorem cex_bminY : bboxMinY cexV1 cexV2 cexV3 = 400 := by
  unfold bboxMinY
  rw [cex_projY1, cex_projY2, cex_projY3]
  rw [show max (min (min (400 : ℝ) 400) (2002 / 5)) 0 = 400 by norm_num]
  exact rustUsize_eval _ _ (by norm_num)

theorem cex_bmaxY : bboxMaxY cexV1 cexV2 cexV3 = 400 := by
  unfold bboxMaxY
  rw [cex_projY1, cex_projY2, cex_projY3]
  rw [show min (max (max (400 : ℝ) 400) (2002 / 5)) ((HEIGHT : ℝ) - 1) = 2002 / 5 by
    norm_num [HEIGHT]]
  exact rustUsize_eval _ _ (by norm_num)

theorem cex_bary : baryCoords cexV1 cexV2 cexV3 400 400 = (0, 0) := by
  unfold baryCoords
  rw [cex_projX1, cex_projX2, cex_projX3, cex_projY1, cex_projY2, cex_projY3]
  norm_num

theorem cex_inside : insideTri cexV1 cexV2 cexV3 400 400 := by
  unfold insideTri
  rw [cex_bary]
  norm_num

theorem cex_z : (interpPos cexV1 cexV2 cexV3 400 400).z = 0 := by
  unfold interpPos
  rw [cex_bary]
  norm_num [Vec3.add, Vec3.sub, Vec3.mul, cexV1, cexV2, cexV3]

theorem cex_covers : coversPixel cexRed 400 400 ∧ coversPixel cexGreen 400 400 := by
  have hbb : inBBox cexV1 cexV2 cexV3 400 400 := by
    unfold inBBox
    rw [cex_bminX, cex_bmaxX, cex_bminY, cex_bmaxY]
    omega
  exact ⟨⟨hbb, cex_inside⟩, ⟨hbb, cex_inside⟩⟩

/-- Claim C3, counterexample: two copies of the same tiny triangle drawn with
different constant shaders both cover pixel (400, 400) with equal interpolated
depth 0; the strict depth test `z > stored` keeps the first-drawn colour, so
the two drawing orders produce different final colours at that pixel. -/
theorem claim_C3_counterexample :
    (renderCalls cexLight 0 [cexRed, cexGreen] initState).buffer (400 * WIDTH + 400) ≠
      (renderCalls cexLight 0 [cexGreen, cexRed] initState).buffer (400 * WIDTH + 400) := by
  have hx0 : (400 : ℕ) < WIDTH := by norm_num [WIDTH]
  have hcovR : coversPixel cexRed 400 400 := cex_covers.1
  have hcovG : coversPixel cexGreen 400 400 := cex_covers.2
  have hzR : zAtPixel cexRed 400 400 = 0 := cex_z
  have hzG : zAtPixel cexGreen 400 400 = 0 := cex_z
  have hw1 : ∀ col : ℕ, depthWrite 0 col ((0 : ℕ), (⊥ : WithBot ℝ)) = (col, ((0 : ℝ) : WithBot ℝ)) := by
    intro col
    unfold depthWrite
    dsimp only
    rw [if_pos (WithBot.bot_lt_coe (0 : ℝ))]
  have hw2 : ∀ col col' : ℕ, depthWrite 0 col' (col, ((0 : ℝ) : WithBot ℝ)) = (col, ((0 : ℝ) : WithBot ℝ)) := by
    intro col col'
    unfold depthWrite
    dsimp only
    rw [if_neg (lt_irrefl _)]
  have hb1 : (renderCalls cexLight 0 [cexRed, cexGreen] initState).buffer (400 * WIDTH + 400)
      = 16711680 := by
    show ((renderCalls cexLight 0 [cexRed, cexGreen] initState).cell (400 * WIDTH + 400)).1
      = 16711680
    rw [renderCalls_cell cexLight 0 400 400 hx0 [cexRed, cexGreen] initState]
    rw [List.foldl_cons, List.foldl_cons, List.foldl_nil]
    rw [callCellStep_eq, callCellStep_eq]
    rw [if_pos hcovR, if_pos hcovG, hzR, hzG]
    rw [show initState.cell (400 * WIDTH + 400) = ((0 : ℕ), (⊥ : WithBot ℝ)) from rfl]
    rw [hw1, hw2]
    show colAtPixel cexLight 0 cexRed 400 400 = 16711680
    show (Color.mk 255 0 0).to_u32 = 16711680
    decide
  have hb2 : (renderCalls cexLight 0 [cexGreen, cexRed] initState).buffer (400 * WIDTH + 400)
      = 65280 := by
    show ((renderCalls cexLight 0 [cexGreen, cexRed] initState).cell (400 * WIDTH + 400)).1
      = 65280
    rw [renderCalls_cell cexLight 0 400 400 hx0 [cexGreen, cexRed] initState]
    rw [List.foldl_cons, List.foldl_cons, List.foldl_nil]
    rw [callCellStep_eq, callCellStep_eq]
    rw [if_pos hcovR, if_pos hcovG, hzR, hzG]
    rw [show initState.cell (400 * WIDTH + 400) = ((0 : ℕ), (⊥ : WithBot ℝ)) from rfl]
    rw [hw1, hw2]
    show colAtPixel cexLight 0 cexGreen 400 400 = 65280
    show (Color.mk 0 255 0).to_u32 = 65280
    decide
  rw [hb1, hb2]
  decide

/-! ### Degenerate triangles under IEEE semantics -/

theorem efMul_fin_not_finite (q : ℚ) (e : EFloat) (h : e.isFinite = false) :
    (efMul (.fin q) e).isFinite = false := by
  cases e with
  | nan => rfl
  | pinf =>
    show (if 0 < q then EFloat.pinf else if q < 0 then EFloat.ninf else EFloat.nan).isFinite
      = false
    split_ifs <;> rfl
  | ninf =>
    show (if 0 < q then EFloat.ninf else if q < 0 then EFloat.pinf else EFloat.nan).isFinite
      = false
    split_ifs <;> rfl
  | fin a => simp [EFloat.isFinite] at h

theorem efInside_false_of_not_finite (u v : EFloat) (hu : u.isFinite = false)
    (hv : v.isFinite = false) : efInside u v = false := by
  cases u with
  | fin a => simp [EFloat.isFinite] at hu
  | nan => rfl
  | ninf => rfl
  | pinf =>
    cases v with
    | fin b => simp [EFloat.isFinite] at hv
    | nan => rfl
    | ninf => rfl
    | pinf => rfl

theorem efPixelInside_false_of_denom_zero (p1 p2 p3 : ℚ × ℚ)
    (h : baryDenomQ p1 p2 p3 = 0) (px py : ℚ) :
    efPixelInside p1 p2 p3 px py = false := by
  unfold efPixelInside efBary
  rw [h]
  rw [show efDiv1 (.fin 0) = EFloat.pinf from by decide]
  exact efInside_false_of_not_finite _ _ (efMul_fin_not_finite _ EFloat.pinf rfl)
    (efMul_fin_not_finite _ EFloat.pinf rfl)

/-- Claim C2: when the screen-space barycentric denominator of a triangle is
zero (the degenerate case: in `f32`, `1.0 / 0.0` is an infinity and the
resulting weights are infinite or NaN, and every comparison with NaN is false),
the inside-test fails at every pixel, so the pixel loop writes nothing to the
buffers, whatever the guarded write body would have done. -/
theorem claim_C2_degenerate_skipped {α : Type} (p1 p2 p3 : ℚ × ℚ)
    (h : baryDenomQ p1 p2 p3 = 0) (pixels : List (ℚ × ℚ)) (writeAt : ℚ × ℚ → α → α)
    (st : α) : efRasterLoop p1 p2 p3 pixels writeAt st = st := by
  induction pixels generalizing st with
  | nil => rfl
  | cons q tl ih =>
    show tl.foldl (fun s q => if efPixelInside p1 p2 p3 q.1 q.2 then writeAt q s else s)
      (if efPixelInside p1 p2 p3 q.1 q.2 then writeAt q st else st) = st
    rw [if_neg (show ¬ (efPixelInside p1 p2 p3 q.1 q.2 = true) by
      rw [efPixelInside_false_of_denom_zero p1 p2 p3 h]
      simp)]
    exact ih st

/-- Claim C2, witness: collinear projected points give barycentric denominator
zero, and a two-pixel loop with a genuinely mutating write body leaves the
state unchanged. -/
theorem claim_C2_witness :
    baryDenomQ (0, 0) (1, 1) (2, 2) = 0 ∧
      efRasterLoop (0, 0) (1, 1) (2, 2) [(5, 5), (400, 400)]
        (fun _ n => n + 1) (0 : ℕ) = 0 := by
  have h : baryDenomQ (0, 0) (1, 1) (2, 2) = 0 := by norm_num [baryDenomQ]
  exact ⟨h, claim_C2_degenerate_skipped (0, 0) (1, 1) (2, 2) h [(5, 5), (400, 400)]
    (fun _ n => n + 1) 0⟩

end Shaders
